import Mathlib

/-!
Shallow embedding of the task-store HTTP service in `src/server.js`
(App_tareas).  The service keeps an in-memory array `tareas` of task
records and a global id counter `contadorId`, and exposes list / get /
create / update / toggle / delete / statistics operations over them.
Each Express handler is translated into a pure Lean function over an
explicit `Store` state; fallible handlers return `Except String`, the
error string being exactly the JSON error message the handler sends.
-/

namespace AppTareas

/-- A task record, as built by the POST handler (`server.js` lines
108-116): fields `id`, `titulo`, `descripcion`, `categoria`,
`prioridad`, `completada`, `fecha`. -/
structure Tarea where
  id : Int
  titulo : String
  descripcion : String
  categoria : String
  prioridad : String
  completada : Bool
  fecha : String
deriving Repr, DecidableEq

/-- The mutable module-level state of `server.js`: the `tareas` array
and the id counter `contadorId` (line 48). -/
structure Store where
  tareas : List Tarea
  contadorId : Int
deriving Repr, DecidableEq

/-- Modelled from the spec: the declaration of the `tareas` array is
commented out in `server.js` (lines 26-47); per the spec the collection
is "initialized empty (or with seed data) at process start".  We take
the empty collection; `contadorId` starts at 3 as on line 48. -/
def initStore : Store := { tareas := [], contadorId := 3 }

/-- JavaScript falsiness of an optional string value: `undefined`
(absent) and the empty string are falsy; any other string is truthy. -/
def falsyStr : Option String → Bool
  | none => true
  | some s => s == ""

/-- Body of a POST `/api/tareas` request (`server.js` line 99): the
handler destructures `titulo`, `descripcion`, `categoria`, `prioridad`,
each possibly absent. -/
structure CreateBody where
  titulo : Option String
  descripcion : Option String
  categoria : Option String
  prioridad : Option String
deriving Repr, DecidableEq

/-- The validation test of the POST handler (`server.js` line 102):
`!titulo || !categoria || !prioridad`. -/
def createInvalid (b : CreateBody) : Bool :=
  falsyStr b.titulo || falsyStr b.categoria || falsyStr b.prioridad

/-- POST `/api/tareas` (`server.js` lines 98-120).  On validation
failure responds 400 with the error message and changes nothing.  On
success builds the new record with id `contadorId` (post-incrementing
the counter), `descripcion || ''`, `completada: false` and the current
timestamp `fecha`, pushes it at the end of `tareas`, and responds 201
with it.  The timestamp is passed in as the parameter `fecha`. -/
def createTarea (b : CreateBody) (fecha : String) (st : Store) :
    Except String (Tarea × Store) :=
  if createInvalid b then
    .error "Faltan campos requeridos: titulo, categoria, prioridad"
  else
    let nuevaTarea : Tarea :=
      { id := st.contadorId
        titulo := b.titulo.getD ""
        descripcion := b.descripcion.getD ""
        categoria := b.categoria.getD ""
        prioridad := b.prioridad.getD ""
        completada := false
        fecha := fecha }
    .ok (nuevaTarea,
      { tareas := st.tareas ++ [nuevaTarea], contadorId := st.contadorId + 1 })

/-- Query of a GET `/api/tareas` request (`server.js` line 62): the
handler destructures `categoria`, `prioridad`, `completada` from
`req.query`, each possibly absent. -/
structure ListQuery where
  categoria : Option String
  prioridad : Option String
  completada : Option String
deriving Repr, DecidableEq

/-- GET `/api/tareas` (`server.js` lines 58-83).  Starting from the
whole collection, filters by `categoria` when that query value is
truthy, then by `prioridad` when truthy, then by `completada` whenever
it is present (`!== undefined`), comparing `completada === 'true'`. -/
def listTareas (q : ListQuery) (st : Store) : List Tarea :=
  let f1 :=
    if falsyStr q.categoria then st.tareas
    else st.tareas.filter (fun t => t.categoria == q.categoria.getD "")
  let f2 :=
    if falsyStr q.prioridad then f1
    else f1.filter (fun t => t.prioridad == q.prioridad.getD "")
  match q.completada with
  | none => f2
  | some c => f2.filter (fun t => t.completada == (c == "true"))

/-- GET `/api/tareas/:id` (`server.js` lines 86-95): `find` on the
array; 404 with the error message when absent. -/
def getTarea (id : Int) (st : Store) : Except String Tarea :=
  match st.tareas.find? (fun t => t.id == id) with
  | some tarea => .ok tarea
  | none => .error "Tarea no encontrada"

/-- Body of a PUT `/api/tareas/:id` request: any subset of the task
fields may be present, including an `id` (which the handler then
overrides). -/
structure UpdateBody where
  id : Option Int := none
  titulo : Option String := none
  descripcion : Option String := none
  categoria : Option String := none
  prioridad : Option String := none
  completada : Option Bool := none
  fecha : Option String := none
deriving Repr, DecidableEq

/-- The merge `{ ...tareas[index], ...req.body, id }` of the PUT
handler (`server.js` lines 132-136): fields present in the body
overwrite those of the stored record, and the trailing `id` property
forces the id from the URL, discarding any `id` in the body. -/
def mergeTarea (t : Tarea) (b : UpdateBody) (urlId : Int) : Tarea :=
  { id := urlId
    titulo := b.titulo.getD t.titulo
    descripcion := b.descripcion.getD t.descripcion
    categoria := b.categoria.getD t.categoria
    prioridad := b.prioridad.getD t.prioridad
    completada := b.completada.getD t.completada
    fecha := b.fecha.getD t.fecha }

/-- Replace the first record whose id matches (the element
`findIndex` locates, `server.js` line 125) by its merge with the body;
`none` when no record matches (`index === -1`). -/
def updateList (urlId : Int) (b : UpdateBody) :
    List Tarea → Option (Tarea × List Tarea)
  | [] => none
  | t :: ts =>
    if t.id == urlId then
      let t2 := mergeTarea t b urlId
      some (t2, t2 :: ts)
    else
      match updateList urlId b ts with
      | some (t2, ts2) => some (t2, t :: ts2)
      | none => none

/-- PUT `/api/tareas/:id` (`server.js` lines 123-139): `findIndex`,
404 when `-1`, otherwise in-place merge and respond with the updated
record. -/
def updateTarea (id : Int) (b : UpdateBody) (st : Store) :
    Except String (Tarea × Store) :=
  match updateList id b st.tareas with
  | some (t2, ts2) => .ok (t2, { st with tareas := ts2 })
  | none => .error "Tarea no encontrada"

/-- Flip `completada` on the first record whose id matches (the
element `find` locates, `server.js` line 144); `none` when absent. -/
def toggleList (id : Int) : List Tarea → Option (Tarea × List Tarea)
  | [] => none
  | t :: ts =>
    if t.id == id then
      let t2 := { t with completada := !t.completada }
      some (t2, t2 :: ts)
    else
      match toggleList id ts with
      | some (t2, ts2) => some (t2, t :: ts2)
      | none => none

/-- PATCH `/api/tareas/:id/toggle` (`server.js` lines 142-152): `find`,
404 when absent, otherwise `tarea.completada = !tarea.completada` in
place and respond with the updated record. -/
def toggleTarea (id : Int) (st : Store) : Except String (Tarea × Store) :=
  match toggleList id st.tareas with
  | some (t2, ts2) => .ok (t2, { st with tareas := ts2 })
  | none => .error "Tarea no encontrada"

/-- Remove the first record whose id matches, returning it together
with the remaining list (`splice(index, 1)` at the index `findIndex`
locates, `server.js` lines 157-163); `none` when absent. -/
def deleteList (id : Int) : List Tarea → Option (Tarea × List Tarea)
  | [] => none
  | t :: ts =>
    if t.id == id then some (t, ts)
    else
      match deleteList id ts with
      | some (t2, ts2) => some (t2, t :: ts2)
      | none => none

/-- DELETE `/api/tareas/:id` (`server.js` lines 155-165): `findIndex`,
404 when `-1`, otherwise `splice` out the record and respond with it
(`tareaEliminada[0]`). -/
def deleteTarea (id : Int) (st : Store) : Except String (Tarea × Store) :=
  match deleteList id st.tareas with
  | some (t2, ts2) => .ok (t2, { st with tareas := ts2 })
  | none => .error "Tarea no encontrada"

/-- A JavaScript numeric value as stored in an own property of the
`porCategoria` object: an actual number, or `NaN` (which the `++` at
`server.js` line 181 produces when the value it read coerced to
`NaN`). -/
inductive JsNum where
  | num (n : Nat)
  | nan
deriving Repr, DecidableEq

/-- The own data properties of `Object.prototype`, which the lookup
`stats.porCategoria[t.categoria]` (`server.js` line 178) reaches
through the prototype chain when `porCategoria` — a plain object
literal — has no own property of that name.  Each holds a function,
which is truthy and coerces to `NaN`. -/
def protoKeys : List String :=
  ["constructor", "hasOwnProperty", "isPrototypeOf",
   "propertyIsEnumerable", "toLocaleString", "toString", "valueOf",
   "__defineGetter__", "__defineSetter__", "__lookupGetter__",
   "__lookupSetter__"]

/-- The effect of `if (!obj[c]) obj[c] = 0; obj[c]++` on an own
property that already holds `v`: `0` and `NaN` are falsy, so the guard
resets them to `0` before the increment; a nonzero number is truthy and
is simply incremented. -/
def bumpOwn : JsNum → JsNum
  | .num 0 => .num 1
  | .num (n + 1) => .num (n + 2)
  | .nan => .num 1

/-- One step of the `forEach` body (`server.js` lines 178-181) on the
own properties of `porCategoria`, for a key `c` other than
`"__proto__"`, the object modelled as an association list of its own
properties in insertion order.  When an own property `c` exists it
shadows the prototype and is bumped in place.  When none exists and
`c` names an `Object.prototype` property, the guard `!obj[c]` reads
the inherited function — truthy — and skips the zero-initialisation;
`obj[c]++` then coerces that function to `NaN` and the write-back
creates the own property `c` holding `NaN`.  Otherwise the read gives
`undefined` (falsy), the property is initialised to `0` and
incremented to `1`. -/
def bumpOwnMap (c : String) : List (String × JsNum) → List (String × JsNum)
  | [] =>
    if protoKeys.contains c then [(c, JsNum.nan)] else [(c, JsNum.num 1)]
  | (k, v) :: m =>
    if k == c then (k, bumpOwn v) :: m else (k, v) :: bumpOwnMap c m

/-- The effect of `if (!stats.porCategoria[c]) stats.porCategoria[c]
= 0; stats.porCategoria[c]++` (`server.js` lines 177-182) on the plain
object `porCategoria`, including the prototype chain of the object
literal `{}`.  For `c = "__proto__"` the read hits the inherited
accessor and returns `Object.prototype` — truthy, so the guard is
skipped — and the write-back of `NaN` is swallowed by that accessor
(a non-object assigned through the `__proto__` setter is ignored and
never creates an own property): the object is unchanged and the key
never appears.  Every other key acts on the own properties as in
`bumpOwnMap`. -/
def bumpCategoria (m : List (String × JsNum)) (c : String) :
    List (String × JsNum) :=
  if c == "__proto__" then m else bumpOwnMap c m

/-- The statistics object of GET `/api/estadisticas`
(`server.js` lines 168-185); `porCategoria` is the plain object's own
properties in insertion order, with possibly-`NaN` values. -/
structure Stats where
  total : Nat
  completadas : Nat
  pendientes : Nat
  porCategoria : List (String × JsNum)
deriving Repr, DecidableEq

/-- GET `/api/estadisticas` (`server.js` lines 168-185): counts of all,
completed and pending tasks, plus the per-category counts accumulated
by the `forEach` scan. -/
def estadisticas (st : Store) : Stats :=
  { total := st.tareas.length
    completadas := (st.tareas.filter (fun t => t.completada)).length
    pendientes := (st.tareas.filter (fun t => !t.completada)).length
    porCategoria := st.tareas.foldl (fun m t => bumpCategoria m t.categoria) [] }

/-- A state-changing request to the store: one constructor per route
(the two read-only GET routes included, for uniformity of the
operation-sequence model). -/
inductive Op where
  | list (q : ListQuery)
  | get (id : Int)
  | create (b : CreateBody) (fecha : String)
  | update (id : Int) (b : UpdateBody)
  | toggle (id : Int)
  | delete (id : Int)
  | stats
deriving Repr, DecidableEq

/-- The effect of one request on the store state: read-only routes and
failed requests leave the state as it was (the handlers return before
touching `tareas` or `contadorId`). -/
def applyOp (o : Op) (st : Store) : Store :=
  match o with
  | .list _ => st
  | .get _ => st
  | .stats => st
  | .create b fecha =>
    match createTarea b fecha st with
    | .ok (_, st2) => st2
    | .error _ => st
  | .update id b =>
    match updateTarea id b st with
    | .ok (_, st2) => st2
    | .error _ => st
  | .toggle id =>
    match toggleTarea id st with
    | .ok (_, st2) => st2
    | .error _ => st
  | .delete id =>
    match deleteTarea id st with
    | .ok (_, st2) => st2
    | .error _ => st

/-- The store state after a sequence of requests. -/
def applyOps (ops : List Op) (st : Store) : Store :=
  ops.foldl (fun s o => applyOp o s) st

/-- Written from the spec's words, for comparison with `listTareas`:
"List returns exactly the tasks satisfying all supplied filters" — a
filter that is present (supplied) must match exactly; for the
`completed` filter satisfaction is comparison with `value == "true"`. -/
def matchesSupplied (q : ListQuery) (t : Tarea) : Bool :=
  (match q.categoria with | none => true | some c => t.categoria == c) &&
    (match q.prioridad with | none => true | some p => t.prioridad == p) &&
      (match q.completada with
       | none => true
       | some c => t.completada == (c == "true"))

/-- What `listTareas` actually selects: a `categoria` or `prioridad`
filter that is absent or the empty string (falsy) is a no-op; a
`completada` filter is applied whenever present, comparing with
`value == "true"`. -/
def matchesQuery (q : ListQuery) (t : Tarea) : Bool :=
  (falsyStr q.categoria || t.categoria == q.categoria.getD "") &&
    (falsyStr q.prioridad || t.prioridad == q.prioridad.getD "") &&
      (match q.completada with
       | none => true
       | some c => t.completada == (c == "true"))

/-- The store invariant behind id uniqueness: ids appear in strictly
increasing order along the collection, and every live id is below the
counter. -/
def Inv (st : Store) : Prop :=
  List.Pairwise (· < ·) (st.tareas.map Tarea.id) ∧
    ∀ i ∈ st.tareas.map Tarea.id, i < st.contadorId

/-- A concrete task, used to instantiate the universally quantified
theorems below. -/
def sampleTarea : Tarea :=
  { id := 1, titulo := "Aprender", descripcion := "", categoria := "X"
    prioridad := "alta", completada := false, fecha := "2025-01-01" }

/-- A concrete store holding `sampleTarea`. -/
def sampleStore : Store := { tareas := [sampleTarea], contadorId := 3 }

/-- A concrete valid creation body. -/
def sampleBody : CreateBody :=
  { titulo := some "Comprar", descripcion := none
    categoria := some "Personal", prioridad := some "media" }

/-- A list query whose `categoria` value is supplied but empty. -/
def emptyCategoriaQuery : ListQuery :=
  { categoria := some "", prioridad := none, completada := none }

/-- A concrete creation body whose `categoria` is the empty string,
hence falsy. -/
def invalidBody : CreateBody :=
  { titulo := some "t", descripcion := none
    categoria := some "", prioridad := some "alta" }

/-- The query with no filter supplied. -/
def noFilters : ListQuery :=
  { categoria := none, prioridad := none, completada := none }

/-- A query supplying only the `completada` filter, with value `c`. -/
def completadaQuery (c : String) : ListQuery :=
  { categoria := none, prioridad := none, completada := some c }

/-- Written from the spec's words, for comparison with what the code
produces: "the sum of the byCategory values", defined when every value
is an actual number — a mapping holding `NaN` has no numeric sum. -/
def jsNumSum : List (String × JsNum) → Option Nat
  | [] => some 0
  | (_, JsNum.num n) :: m => (jsNumSum m).map (fun s => n + s)
  | (_, JsNum.nan) :: _ => none

/-- A valid creation body whose `categoria` is `"toString"` — an
ordinary non-empty string that Create accepts. -/
def protoBody : CreateBody :=
  { titulo := some "t", descripcion := none
    categoria := some "toString", prioridad := some "alta" }

/-- A valid creation body whose `categoria` is `"__proto__"`. -/
def protoBody2 : CreateBody :=
  { titulo := some "t", descripcion := none
    categoria := some "__proto__", prioridad := some "alta" }

/-- A concrete update body carrying a different id than the task it
updates. -/
def sampleUpdateBody : UpdateBody := { id := some 42, titulo := some "Nuevo" }

theorem createTarea_ok_iff (b : CreateBody) (f : String) (st : Store)
    (t : Tarea) (st2 : Store) (h : createTarea b f st = .ok (t, st2)) :
    createInvalid b = false ∧ t.id = st.contadorId ∧
      st2.contadorId = st.contadorId + 1 ∧ st2.tareas = st.tareas ++ [t] := by
  by_cases hb : createInvalid b
  · simp [createTarea, hb] at h
  · simp only [createTarea, hb, Bool.false_eq_true, if_false, Except.ok.injEq,
      Prod.mk.injEq] at h
    obtain ⟨rfl, rfl⟩ := h
    exact ⟨by simpa using hb, rfl, rfl, rfl⟩

/-- C2: a Create call with any of `titulo`/`categoria`/`prioridad`
missing or falsy fails with the validation error message and leaves the
store (collection and id counter) unchanged, while a valid Create
increments the counter by exactly one. -/
theorem create_validation_leaves_store_unchanged (st : Store)
    (b : CreateBody) (f : String) (h : createInvalid b = true) :
    createTarea b f st =
        .error "Faltan campos requeridos: titulo, categoria, prioridad" ∧
      applyOp (.create b f) st = st ∧
      ∀ b2 f2, createInvalid b2 = false →
        (applyOp (.create b2 f2) st).contadorId = st.contadorId + 1 := by
  refine ⟨by simp [createTarea, h], by simp [applyOp, createTarea, h], ?_⟩
  intro b2 f2 h2
  simp [applyOp, createTarea, h2]

theorem create_validation_witness :
    createTarea invalidBody "f" initStore =
        .error "Faltan campos requeridos: titulo, categoria, prioridad" ∧
      applyOp (.create invalidBody "f") initStore = initStore ∧
      ∀ b2 f2, createInvalid b2 = false →
        (applyOp (.create b2 f2) initStore).contadorId =
          initStore.contadorId + 1 :=
  create_validation_leaves_store_unchanged initStore invalidBody "f" (by decide)

/-- C8: a Create call whose `titulo`, `categoria`, `prioridad` are all
present and truthy succeeds; the new record carries the next sequential
id, `completada = false`, the creation timestamp, the supplied fields,
and `descripcion` defaults to the empty string when omitted; the record
is appended at the end of the collection and returned. -/
theorem create_success_appends (st : Store) (b : CreateBody) (f : String)
    (h : createInvalid b = false) :
    ∃ t st2, createTarea b f st = .ok (t, st2) ∧
      t.id = st.contadorId ∧ t.completada = false ∧ t.fecha = f ∧
      t.titulo = b.titulo.getD "" ∧ t.categoria = b.categoria.getD "" ∧
      t.prioridad = b.prioridad.getD "" ∧
      t.descripcion = b.descripcion.getD "" ∧
      (b.descripcion = none → t.descripcion = "") ∧
      st2.tareas = st.tareas ++ [t] ∧ st2.contadorId = st.contadorId + 1 := by
  unfold createTarea
  simp only [h, Bool.false_eq_true, if_false]
  exact ⟨_, _, rfl, rfl, rfl, rfl, rfl, rfl, rfl, rfl,
    fun hd => by simp [hd], rfl, rfl⟩

theorem updateList_of_find? (id : Int) (b : UpdateBody) :
    ∀ (ts : List Tarea) (t : Tarea),
      ts.find? (fun x => x.id == id) = some t →
      ∃ i, ts[i]? = some t ∧
        updateList id b ts =
          some (mergeTarea t b id, ts.set i (mergeTarea t b id)) := by
  intro ts
  induction ts with
  | nil => intro t h; simp [List.find?] at h
  | cons a as ih =>
    intro t h
    by_cases ha : (a.id == id) = true
    · simp only [List.find?_cons, ha, cond_true, Option.some.injEq] at h
      subst h
      exact ⟨0, by simp, by simp [updateList, ha]⟩
    · rw [Bool.not_eq_true] at ha
      simp only [List.find?_cons, ha, cond_false] at h
      obtain ⟨i, hi, hu⟩ := ih t h
      exact ⟨i + 1, by simpa using hi, by simp [updateList, ha, hu]⟩

theorem toggleList_of_find? (id : Int) :
    ∀ (ts : List Tarea) (t : Tarea),
      ts.find? (fun x => x.id == id) = some t →
      ∃ i, ts[i]? = some t ∧
        toggleList id ts =
          some ({ t with completada := !t.completada },
            ts.set i { t with completada := !t.completada }) := by
  intro ts
  induction ts with
  | nil => intro t h; simp [List.find?] at h
  | cons a as ih =>
    intro t h
    by_cases ha : (a.id == id) = true
    · simp only [List.find?_cons, ha, cond_true, Option.some.injEq] at h
      subst h
      exact ⟨0, by simp, by simp [toggleList, ha]⟩
    · rw [Bool.not_eq_true] at ha
      simp only [List.find?_cons, ha, cond_false] at h
      obtain ⟨i, hi, hu⟩ := ih t h
      exact ⟨i + 1, by simpa using hi, by simp [toggleList, ha, hu]⟩

theorem deleteList_of_find? (id : Int) :
    ∀ (ts : List Tarea) (t : Tarea),
      ts.find? (fun x => x.id == id) = some t →
      ∃ i, ts[i]? = some t ∧ deleteList id ts = some (t, ts.eraseIdx i) := by
  intro ts
  induction ts with
  | nil => intro t h; simp [List.find?] at h
  | cons a as ih =>
    intro t h
    by_cases ha : (a.id == id) = true
    · simp only [List.find?_cons, ha, cond_true, Option.some.injEq] at h
      subst h
      exact ⟨0, by simp, by simp [deleteList, ha]⟩
    · rw [Bool.not_eq_true] at ha
      simp only [List.find?_cons, ha, cond_false] at h
      obtain ⟨i, hi, hu⟩ := ih t h
      exact ⟨i + 1, by simpa using hi, by simp [deleteList, ha, hu]⟩

theorem toggleList_twice (id : Int) :
    ∀ (ts ts2 : List Tarea) (t2 : Tarea),
      toggleList id ts = some (t2, ts2) →
      toggleList id ts2 = some ({ t2 with completada := !t2.completada }, ts) := by
  intro ts
  induction ts with
  | nil => intro ts2 t2 h; simp [toggleList] at h
  | cons a as ih =>
    intro ts2 t2 h
    by_cases ha : (a.id == id) = true
    · rw [toggleList, if_pos ha, Option.some.injEq, Prod.mk.injEq] at h
      obtain ⟨rfl, rfl⟩ := h
      rw [toggleList, if_pos ha]
      refine congrArg some (Prod.ext rfl ?_)
      show ({ a with completada := !(!a.completada) } : Tarea) :: as = a :: as
      cases a
      simp
    · rw [toggleList, if_neg ha] at h
      cases hu : toggleList id as with
      | none => rw [hu] at h; exact absurd h (by simp)
      | some p =>
        obtain ⟨t2', ts2'⟩ := p
        rw [hu, Option.some.injEq, Prod.mk.injEq] at h
        obtain ⟨rfl, rfl⟩ := h
        rw [toggleList, if_neg ha, ih ts2' t2' hu]

theorem find?_of_getTarea (id : Int) (st : Store) (t : Tarea)
    (h : getTarea id st = .ok t) :
    st.tareas.find? (fun x => x.id == id) = some t ∧ t.id = id := by
  cases hf : st.tareas.find? (fun x => x.id == id) with
  | none => simp [getTarea, hf] at h
  | some t' =>
    simp only [getTarea, hf, Except.ok.injEq] at h
    subst h
    exact ⟨rfl, by simpa using List.find?_some hf⟩

/-- C4: updating an existing task replaces exactly the supplied fields
(omitted fields keep their prior values), forcibly preserves the
original id even when the body carries a different id, returns the
updated record, and leaves the task at its position in the
collection (and the id counter untouched). -/
theorem update_merges_preserving_id (st : Store) (id : Int)
    (b : UpdateBody) (t : Tarea) (h : getTarea id st = .ok t) :
    ∃ t2 st2, updateTarea id b st = .ok (t2, st2) ∧
      t2 = mergeTarea t b id ∧ t2.id = t.id ∧
      (∀ s, b.titulo = some s → t2.titulo = s) ∧
      (b.titulo = none → t2.titulo = t.titulo) ∧
      (∀ s, b.descripcion = some s → t2.descripcion = s) ∧
      (b.descripcion = none → t2.descripcion = t.descripcion) ∧
      (∀ s, b.categoria = some s → t2.categoria = s) ∧
      (b.categoria = none → t2.categoria = t.categoria) ∧
      (∀ s, b.prioridad = some s → t2.prioridad = s) ∧
      (b.prioridad = none → t2.prioridad = t.prioridad) ∧
      (∀ c, b.completada = some c → t2.completada = c) ∧
      (b.completada = none → t2.completada = t.completada) ∧
      (∀ s, b.fecha = some s → t2.fecha = s) ∧
      (b.fecha = none → t2.fecha = t.fecha) ∧
      st2.contadorId = st.contadorId ∧
      ∃ i, st.tareas[i]? = some t ∧ st2.tareas = st.tareas.set i t2 := by
  obtain ⟨hf, hid⟩ := find?_of_getTarea id st t h
  obtain ⟨i, hi, hu⟩ := updateList_of_find? id b st.tareas t hf
  refine ⟨mergeTarea t b id,
    { st with tareas := st.tareas.set i (mergeTarea t b id) },
    by simp [updateTarea, hu], rfl, by simp [mergeTarea, hid], ?_, ?_, ?_,
    ?_, ?_, ?_, ?_, ?_, ?_, ?_, ?_, ?_, rfl, i, hi, rfl⟩
  all_goals
    first
    | exact fun s hs => by simp [mergeTarea, hs]
    | exact fun hn => by simp [mergeTarea, hn]

theorem update_merges_witness :
    ∃ t2 st2,
      updateTarea 1 sampleUpdateBody sampleStore = .ok (t2, st2) ∧
      t2 = mergeTarea sampleTarea sampleUpdateBody 1 ∧
      t2.id = sampleTarea.id ∧
      t2.titulo = "Nuevo" ∧ t2.categoria = sampleTarea.categoria ∧
      ∃ i, sampleStore.tareas[i]? = some sampleTarea ∧
        st2.tareas = sampleStore.tareas.set i t2 := by
  obtain ⟨t2, st2, h1, h2, h3, h4, _, _, _, _, h9, _, _, _, _, _, _, _, h18⟩ :=
    update_merges_preserving_id sampleStore 1 sampleUpdateBody
      sampleTarea rfl
  exact ⟨t2, st2, h1, h2, h3, h4 "Nuevo" rfl, h9 rfl, h18⟩

theorem create_success_witness :
    ∃ t st2, createTarea sampleBody "2025-02-02" sampleStore = .ok (t, st2) ∧
      t.id = sampleStore.contadorId ∧ t.completada = false ∧
      t.fecha = "2025-02-02" ∧
      t.titulo = sampleBody.titulo.getD "" ∧
      t.categoria = sampleBody.categoria.getD "" ∧
      t.prioridad = sampleBody.prioridad.getD "" ∧
      t.descripcion = sampleBody.descripcion.getD "" ∧
      (sampleBody.descripcion = none → t.descripcion = "") ∧
      st2.tareas = sampleStore.tareas ++ [t] ∧
      st2.contadorId = sampleStore.contadorId + 1 :=
  create_success_appends sampleStore sampleBody "2025-02-02" (by decide)

theorem updateList_none (id : Int) (b : UpdateBody) :
    ∀ ts : List Tarea, (∀ x ∈ ts, x.id ≠ id) → updateList id b ts = none := by
  intro ts
  induction ts with
  | nil => intro _; rfl
  | cons a as ih =>
    intro h
    have ha : ¬(a.id == id) = true := by
      simpa using h a (List.mem_cons_self a as)
    have has : ∀ x ∈ as, x.id ≠ id := fun x hx => h x (List.mem_cons_of_mem a hx)
    simp [updateList, ha, ih has]

theorem toggleList_none (id : Int) :
    ∀ ts : List Tarea, (∀ x ∈ ts, x.id ≠ id) → toggleList id ts = none := by
  intro ts
  induction ts with
  | nil => intro _; rfl
  | cons a as ih =>
    intro h
    have ha : ¬(a.id == id) = true := by
      simpa using h a (List.mem_cons_self a as)
    have has : ∀ x ∈ as, x.id ≠ id := fun x hx => h x (List.mem_cons_of_mem a hx)
    simp [toggleList, ha, ih has]

theorem deleteList_none (id : Int) :
    ∀ ts : List Tarea, (∀ x ∈ ts, x.id ≠ id) → deleteList id ts = none := by
  intro ts
  induction ts with
  | nil => intro _; rfl
  | cons a as ih =>
    intro h
    have ha : ¬(a.id == id) = true := by
      simpa using h a (List.mem_cons_self a as)
    have has : ∀ x ∈ as, x.id ≠ id := fun x hx => h x (List.mem_cons_of_mem a hx)
    simp [deleteList, ha, ih has]

/-- C5: on an id held by no task, Get, Update, Toggle and Delete all
fail with the not-found error message, and none of them changes the
store. -/
theorem notfound_leaves_store_unchanged (st : Store) (id : Int)
    (b : UpdateBody) (h : ∀ x ∈ st.tareas, x.id ≠ id) :
    getTarea id st = .error "Tarea no encontrada" ∧
      updateTarea id b st = .error "Tarea no encontrada" ∧
      toggleTarea id st = .error "Tarea no encontrada" ∧
      deleteTarea id st = .error "Tarea no encontrada" ∧
      applyOp (.get id) st = st ∧ applyOp (.update id b) st = st ∧
      applyOp (.toggle id) st = st ∧ applyOp (.delete id) st = st := by
  have hf : st.tareas.find? (fun x => x.id == id) = none := by
    rw [List.find?_eq_none]
    intro x hx
    simpa using h x hx
  have hu := updateList_none id b st.tareas h
  have ht := toggleList_none id st.tareas h
  have hd := deleteList_none id st.tareas h
  refine ⟨by simp [getTarea, hf], by simp [updateTarea, hu],
    by simp [toggleTarea, ht], by simp [deleteTarea, hd], rfl,
    by simp [applyOp, updateTarea, hu], by simp [applyOp, toggleTarea, ht],
    by simp [applyOp, deleteTarea, hd]⟩

theorem notfound_witness :
    getTarea 99 sampleStore = .error "Tarea no encontrada" ∧
      updateTarea 99 { titulo := some "x" } sampleStore =
        .error "Tarea no encontrada" ∧
      toggleTarea 99 sampleStore = .error "Tarea no encontrada" ∧
      deleteTarea 99 sampleStore = .error "Tarea no encontrada" ∧
      applyOp (.get 99) sampleStore = sampleStore ∧
      applyOp (.update 99 { titulo := some "x" }) sampleStore = sampleStore ∧
      applyOp (.toggle 99) sampleStore = sampleStore ∧
      applyOp (.delete 99) sampleStore = sampleStore :=
  notfound_leaves_store_unchanged sampleStore 99 { titulo := some "x" }
    (by decide)

/-- C6: deleting an existing id removes exactly the record Get would
have returned for that id — the collection shrinks by one, every other
task is retained in its order (take/drop decomposition) — and the
removed record itself is returned. -/
theorem delete_removes_exactly_one (st : Store) (id : Int) (t : Tarea)
    (h : getTarea id st = .ok t) :
    ∃ st2, deleteTarea id st = .ok (t, st2) ∧
      st2.tareas.length + 1 = st.tareas.length ∧
      st2.contadorId = st.contadorId ∧
      ∃ i, st.tareas[i]? = some t ∧ st2.tareas = st.tareas.eraseIdx i ∧
        st2.tareas = st.tareas.take i ++ st.tareas.drop (i + 1) := by
  obtain ⟨hf, _⟩ := find?_of_getTarea id st t h
  obtain ⟨i, hi, hd⟩ := deleteList_of_find? id st.tareas t hf
  have hilt : i < st.tareas.length := by
    by_contra hge
    rw [List.getElem?_eq_none (Nat.le_of_not_lt hge)] at hi
    exact absurd hi (by simp)
  refine ⟨{ st with tareas := st.tareas.eraseIdx i },
    by simp [deleteTarea, hd], ?_, rfl, i, hi, rfl,
    List.eraseIdx_eq_take_drop_succ st.tareas i⟩
  have := List.length_eraseIdx st.tareas i
  rw [if_pos hilt] at this
  simp only [this]
  omega

theorem delete_witness :
    ∃ st2, deleteTarea 1 sampleStore = .ok (sampleTarea, st2) ∧
      st2.tareas.length + 1 = sampleStore.tareas.length ∧
      st2.contadorId = sampleStore.contadorId ∧
      ∃ i, sampleStore.tareas[i]? = some sampleTarea ∧
        st2.tareas = sampleStore.tareas.eraseIdx i ∧
        st2.tareas = sampleStore.tareas.take i ++
          sampleStore.tareas.drop (i + 1) :=
  delete_removes_exactly_one sampleStore 1 sampleTarea rfl

/-- C9: toggling an existing task returns it with `completada`
negated, and toggling the same id again restores both the original
record and the original collection: Toggle is its own inverse. -/
theorem toggle_involutive (st : Store) (id : Int) (t : Tarea)
    (h : getTarea id st = .ok t) :
    ∃ t2 st2, toggleTarea id st = .ok (t2, st2) ∧
      t2.completada = !t.completada ∧
      ∃ t3 st3, toggleTarea id st2 = .ok (t3, st3) ∧
        t3 = t ∧ t3.completada = t.completada ∧ st3.tareas = st.tareas := by
  obtain ⟨hf, _⟩ := find?_of_getTarea id st t h
  obtain ⟨i, _, ht⟩ := toggleList_of_find? id st.tareas t hf
  have ht2 := toggleList_twice id st.tareas _ _ ht
  refine ⟨{ t with completada := !t.completada },
    { st with tareas := st.tareas.set i { t with completada := !t.completada } },
    by simp [toggleTarea, ht], rfl, t, { st with tareas := st.tareas }, ?_,
    rfl, rfl, rfl⟩
  rw [toggleTarea]
  simp only at ht2
  rw [ht2]
  have : ({ t with completada := !(!t.completada) } : Tarea) = t := by
    cases t; simp
  rw [this]

theorem toggle_witness :
    ∃ t2 st2, toggleTarea 1 sampleStore = .ok (t2, st2) ∧
      t2.completada = !sampleTarea.completada ∧
      ∃ t3 st3, toggleTarea 1 st2 = .ok (t3, st3) ∧
        t3 = sampleTarea ∧ t3.completada = sampleTarea.completada ∧
        st3.tareas = sampleStore.tareas :=
  toggle_involutive sampleStore 1 sampleTarea rfl

theorem list_counterexample_empty_categoria :
    listTareas emptyCategoriaQuery sampleStore ≠
      sampleStore.tareas.filter (matchesSupplied emptyCategoriaQuery) := by
  decide

/-- C3 (amended): List never errors and returns exactly the tasks
satisfying all supplied filters conjunctively, in collection order,
where a `categoria` or `prioridad` filter supplied as the empty string
is — like an absent filter — a no-op; an empty filter set returns all
tasks. -/
theorem list_filters_conjunctively (q : ListQuery) (st : Store) :
    listTareas q st = st.tareas.filter (matchesQuery q) ∧
      listTareas noFilters st = st.tareas := by
  constructor
  · unfold listTareas matchesQuery
    obtain ⟨qc, qp, qco⟩ := q
    by_cases hc : falsyStr qc = true <;> by_cases hp : falsyStr qp = true <;>
      cases qco <;>
        simp [hc, hp, List.filter_filter] <;>
          (apply List.filter_congr; intro a _) <;>
            cases hca : (a.categoria == qc.getD "") <;>
              cases hpa : (a.prioridad == qp.getD "") <;> simp [hca, hpa]
  · rfl

/-- C10: the `completada` filter, when present, selects the completed
tasks exactly when its string value is `"true"`; any other present
value — `"false"`, `"0"`, the empty string or arbitrary text — selects
the tasks with `completada = false`. -/
theorem completada_filter_is_string_true (st : Store) (c : String) :
    listTareas (completadaQuery c) st =
        st.tareas.filter (fun t => t.completada == (c == "true")) ∧
      listTareas (completadaQuery "true") st =
        st.tareas.filter (fun t => t.completada == true) ∧
      (c ≠ "true" →
        listTareas (completadaQuery c) st =
          st.tareas.filter (fun t => t.completada == false)) := by
  refine ⟨rfl, by simp [listTareas, completadaQuery, falsyStr], ?_⟩
  intro hc
  have : (c == "true") = false := by simpa using hc
  simp [listTareas, completadaQuery, falsyStr, this]

theorem completada_filter_witness :
    listTareas (completadaQuery "0") sampleStore =
        sampleStore.tareas.filter
          (fun t => t.completada == ("0" == "true")) ∧
      listTareas (completadaQuery "true") sampleStore =
        sampleStore.tareas.filter (fun t => t.completada == true) ∧
      listTareas (completadaQuery "0") sampleStore =
        sampleStore.tareas.filter (fun t => t.completada == false) := by
  obtain ⟨h1, h2, h3⟩ := completada_filter_is_string_true sampleStore "0"
  exact ⟨h1, h2, h3 (by decide)⟩

/-- C7 (code bug): the per-category "count" object is a plain JS
object, so its lookups reach `Object.prototype`.  At the state reached
from the initial store by one successful Create with category
`"toString"` — an ordinary string Create accepts — the statistics
report `total = 1` while `porCategoria` holds `NaN` under
`"toString"` (the truthy inherited `Object.prototype.toString` skips
the zero-initialisation and `++` stores `NaN`), so the byCategory
values have no numeric sum equal to `total`; with category
`"__proto__"` the write is swallowed by the inherited accessor, the
key never appears, and the values sum to `0 ≠ 1 = total`. -/
theorem stats_sum_fails_on_proto_keys :
    (estadisticas (applyOps [Op.create protoBody "f"] initStore)).total = 1 ∧
      (estadisticas
          (applyOps [Op.create protoBody "f"] initStore)).porCategoria =
        [("toString", JsNum.nan)] ∧
      jsNumSum (estadisticas
          (applyOps [Op.create protoBody "f"] initStore)).porCategoria ≠
        some (estadisticas
          (applyOps [Op.create protoBody "f"] initStore)).total ∧
      (estadisticas (applyOps [Op.create protoBody2 "f"] initStore)).total
        = 1 ∧
      (estadisticas
          (applyOps [Op.create protoBody2 "f"] initStore)).porCategoria =
        [] ∧
      jsNumSum (estadisticas
          (applyOps [Op.create protoBody2 "f"] initStore)).porCategoria ≠
        some (estadisticas
          (applyOps [Op.create protoBody2 "f"] initStore)).total := by
  decide

theorem map_id_updateList (id : Int) (b : UpdateBody) :
    ∀ (ts ts2 : List Tarea) (t2 : Tarea),
      updateList id b ts = some (t2, ts2) →
      ts2.map Tarea.id = ts.map Tarea.id := by
  intro ts
  induction ts with
  | nil => intro ts2 t2 h; simp [updateList] at h
  | cons a as ih =>
    intro ts2 t2 h
    by_cases ha : (a.id == id) = true
    · rw [updateList, if_pos ha, Option.some.injEq, Prod.mk.injEq] at h
      obtain ⟨rfl, rfl⟩ := h
      have : a.id = id := by simpa using ha
      simp [mergeTarea, this]
    · rw [updateList, if_neg ha] at h
      cases hu : updateList id b as with
      | none => rw [hu] at h; exact absurd h (by simp)
      | some p =>
        obtain ⟨t2', ts2'⟩ := p
        rw [hu, Option.some.injEq, Prod.mk.injEq] at h
        obtain ⟨rfl, rfl⟩ := h
        simp [ih ts2' t2' hu]

theorem map_id_toggleList (id : Int) :
    ∀ (ts ts2 : List Tarea) (t2 : Tarea),
      toggleList id ts = some (t2, ts2) →
      ts2.map Tarea.id = ts.map Tarea.id := by
  intro ts
  induction ts with
  | nil => intro ts2 t2 h; simp [toggleList] at h
  | cons a as ih =>
    intro ts2 t2 h
    by_cases ha : (a.id == id) = true
    · rw [toggleList, if_pos ha, Option.some.injEq, Prod.mk.injEq] at h
      obtain ⟨rfl, rfl⟩ := h
      simp
    · rw [toggleList, if_neg ha] at h
      cases hu : toggleList id as with
      | none => rw [hu] at h; exact absurd h (by simp)
      | some p =>
        obtain ⟨t2', ts2'⟩ := p
        rw [hu, Option.some.injEq, Prod.mk.injEq] at h
        obtain ⟨rfl, rfl⟩ := h
        simp [ih ts2' t2' hu]

theorem map_id_deleteList_sublist (id : Int) :
    ∀ (ts ts2 : List Tarea) (t2 : Tarea),
      deleteList id ts = some (t2, ts2) →
      (ts2.map Tarea.id).Sublist (ts.map Tarea.id) := by
  intro ts
  induction ts with
  | nil => intro ts2 t2 h; simp [deleteList] at h
  | cons a as ih =>
    intro ts2 t2 h
    by_cases ha : (a.id == id) = true
    · rw [deleteList, if_pos ha, Option.some.injEq, Prod.mk.injEq] at h
      obtain ⟨rfl, rfl⟩ := h
      exact List.Sublist.cons a.id (List.Sublist.refl _)
    · rw [deleteList, if_neg ha] at h
      cases hu : deleteList id as with
      | none => rw [hu] at h; exact absurd h (by simp)
      | some p =>
        obtain ⟨t2', ts2'⟩ := p
        rw [hu, Option.some.injEq, Prod.mk.injEq] at h
        obtain ⟨rfl, rfl⟩ := h
        simpa using (ih ts2' t2' hu).cons₂ a.id

theorem Inv_initStore : Inv initStore := by
  constructor <;> simp [initStore]

theorem Inv_applyOp (o : Op) (st : Store) (h : Inv st) : Inv (applyOp o st) := by
  obtain ⟨hpw, hlt⟩ := h
  cases o with
  | list q => exact ⟨hpw, hlt⟩
  | get id => exact ⟨hpw, hlt⟩
  | stats => exact ⟨hpw, hlt⟩
  | create b fecha =>
    show Inv (match createTarea b fecha st with
      | .ok (_, st2) => st2 | .error _ => st)
    by_cases hb : createInvalid b = true
    · simp only [createTarea, hb, if_true]
      exact ⟨hpw, hlt⟩
    · rw [Bool.not_eq_true] at hb
      simp only [createTarea, hb, Bool.false_eq_true, if_false]
      constructor
      · rw [List.map_append, List.pairwise_append]
        refine ⟨hpw, by simp, ?_⟩
        intro x hx y hy
        simp only [List.map_cons, List.map_nil, List.mem_singleton] at hy
        subst hy
        exact hlt x hx
      · intro i hi
        rw [List.map_append] at hi
        rcases List.mem_append.1 hi with hx | hx
        · refine lt_trans (hlt i hx) ?_
          show st.contadorId < st.contadorId + 1
          omega
        · simp only [List.map_cons, List.map_nil, List.mem_singleton] at hx
          subst hx
          show st.contadorId < st.contadorId + 1
          omega
  | update id b =>
    show Inv (match updateTarea id b st with
      | .ok (_, st2) => st2 | .error _ => st)
    rw [updateTarea]
    cases hu : updateList id b st.tareas with
    | none => exact ⟨hpw, hlt⟩
    | some p =>
      obtain ⟨t2, ts2⟩ := p
      have hm := map_id_updateList id b st.tareas ts2 t2 hu
      exact ⟨by rw [hm]; exact hpw, by rw [hm]; exact hlt⟩
  | toggle id =>
    show Inv (match toggleTarea id st with
      | .ok (_, st2) => st2 | .error _ => st)
    rw [toggleTarea]
    cases hu : toggleList id st.tareas with
    | none => exact ⟨hpw, hlt⟩
    | some p =>
      obtain ⟨t2, ts2⟩ := p
      have hm := map_id_toggleList id st.tareas ts2 t2 hu
      exact ⟨by rw [hm]; exact hpw, by rw [hm]; exact hlt⟩
  | delete id =>
    show Inv (match deleteTarea id st with
      | .ok (_, st2) => st2 | .error _ => st)
    rw [deleteTarea]
    cases hu : deleteList id st.tareas with
    | none => exact ⟨hpw, hlt⟩
    | some p =>
      obtain ⟨t2, ts2⟩ := p
      have hm := map_id_deleteList_sublist id st.tareas ts2 t2 hu
      exact ⟨hpw.sublist hm, fun i hi => hlt i (hm.subset hi)⟩

theorem Inv_applyOps (ops : List Op) :
    ∀ st : Store, Inv st → Inv (applyOps ops st) := by
  induction ops with
  | nil => intro st h; exact h
  | cons o ops ih =>
    intro st h
    exact ih (applyOp o st) (Inv_applyOp o st h)

theorem contadorId_mono_applyOp (o : Op) (st : Store) :
    st.contadorId ≤ (applyOp o st).contadorId := by
  cases o with
  | list q => exact le_refl _
  | get id => exact le_refl _
  | stats => exact le_refl _
  | create b fecha =>
    show st.contadorId ≤ (match createTarea b fecha st with
      | .ok (_, st2) => st2 | .error _ => st).contadorId
    by_cases hb : createInvalid b = true
    · simp [createTarea, hb]
    · rw [Bool.not_eq_true] at hb
      simp only [createTarea, hb, Bool.false_eq_true, if_false]
      omega
  | update id b =>
    show st.contadorId ≤ (match updateTarea id b st with
      | .ok (_, st2) => st2 | .error _ => st).contadorId
    rw [updateTarea]
    cases hu : updateList id b st.tareas with
    | none => exact le_refl _
    | some p => obtain ⟨t2, ts2⟩ := p; exact le_refl _
  | toggle id =>
    show st.contadorId ≤ (match toggleTarea id st with
      | .ok (_, st2) => st2 | .error _ => st).contadorId
    rw [toggleTarea]
    cases hu : toggleList id st.tareas with
    | none => exact le_refl _
    | some p => obtain ⟨t2, ts2⟩ := p; exact le_refl _
  | delete id =>
    show st.contadorId ≤ (match deleteTarea id st with
      | .ok (_, st2) => st2 | .error _ => st).contadorId
    rw [deleteTarea]
    cases hu : deleteList id st.tareas with
    | none => exact le_refl _
    | some p => obtain ⟨t2, ts2⟩ := p; exact le_refl _

theorem contadorId_mono_applyOps (ops : List Op) :
    ∀ st : Store, st.contadorId ≤ (applyOps ops st).contadorId := by
  induction ops with
  | nil => intro st; exact le_refl _
  | cons o ops ih =>
    intro st
    exact le_trans (contadorId_mono_applyOp o st) (ih (applyOp o st))

/-- C1: in every state reachable from the initial store, the ids of
the live tasks are pairwise distinct, and the ids returned by
successful Create calls are strictly increasing across any interleaved
sequence of further operations — deletions included — so an id is never
assigned twice. -/
theorem ids_unique_and_increasing (ops : List Op) :
    ((applyOps ops initStore).tareas.map Tarea.id).Nodup ∧
      ∀ b f t st1, createTarea b f (applyOps ops initStore) = .ok (t, st1) →
        ∀ ops2 b2 f2 t2 st2,
          createTarea b2 f2 (applyOps ops2 st1) = .ok (t2, st2) →
          t.id < t2.id := by
  constructor
  · exact ((Inv_applyOps ops initStore Inv_initStore).1).imp
      (fun hab => ne_of_lt hab)
  · intro b f t st1 h1 ops2 b2 f2 t2 st2 h2
    obtain ⟨-, hid1, hc1, -⟩ :=
      createTarea_ok_iff b f (applyOps ops initStore) t st1 h1
    obtain ⟨-, hid2, -, -⟩ :=
      createTarea_ok_iff b2 f2 (applyOps ops2 st1) t2 st2 h2
    have hmono := contadorId_mono_applyOps ops2 st1
    omega

theorem ids_unique_witness :
    ((applyOps [] initStore).tareas.map Tarea.id).Nodup ∧ (3 : Int) < 4 := by
  constructor
  · exact (ids_unique_and_increasing []).1
  · exact (ids_unique_and_increasing []).2 sampleBody "f" _ _ rfl
      [] sampleBody "f" _ _ rfl

end AppTareas
